import Mathlib

/-!
# Availability Grid Engine — verification of the DatePicker date-grid logic

Shallow embedding of the calendar date-grid computation implemented by
`useCalendarDays`, `Days.isActive` and the `DatePicker` auto-navigation
effect (source file: the DatePicker component module).  Dayjs dates are
modelled as Gregorian `(year, month, day)` triples; date-strings are real
`String`s produced by a `yyyymmdd` formatter; the hook's local constants
(`days`, `daysToRenderForTheMonth`, `shouldRenderNextMonth`, `allDays`,
`weeks`, …) become top-level functions of the hook's props.
-/

namespace DatePicker

/-- A calendar date, standing for a dayjs value truncated to its
year / month (1–12) / day-of-month components. -/
structure SimpleDate where
  year : Nat
  month : Nat
  day : Nat
deriving DecidableEq, Repr

/-- Modelled from the spec: `daysInMonth` (imported from `@calcom/lib/date-fns`,
whose source is not part of this repository snapshot) — the number of days of
the Gregorian month of the given date, as used by the spec's
`daysInMonth(month)` count. -/
def isLeapYear (y : Nat) : Bool :=
  (y % 4 == 0 && y % 100 != 0) || y % 400 == 0

/-- Modelled from the spec: Gregorian month length for `daysInMonth(month)`. -/
def daysInMonth (y m : Nat) : Nat :=
  if m = 2 then (if isLeapYear y then 29 else 28)
  else if m = 4 ∨ m = 6 ∨ m = 9 ∨ m = 11 then 30
  else 31

/-- Rata-die style day number of a Gregorian date (internal helper used to
compute the day of the week). -/
def dayNumber (dt : SimpleDate) : Nat :=
  let y := if dt.month ≤ 2 then dt.year - 1 else dt.year
  let m := if dt.month ≤ 2 then dt.month + 12 else dt.month
  365 * y + y / 4 - y / 100 + y / 400 + 153 * (m + 1) / 5 + dt.day

/-- Day of the week of a date, with dayjs's convention `0 = Sunday`, …,
`6 = Saturday` (the value of `date.day()`). -/
def dayOfWeek (dt : SimpleDate) : Nat :=
  (dayNumber dt + 6) % 7

/-- Two-digit zero padding, as in the `YYYY-MM-DD` format. -/
def pad2 (n : Nat) : String :=
  if n < 10 then "0" ++ toString n else toString n

/-- Modelled from the spec: `yyyymmdd` (imported from `@calcom/lib/date-fns`,
not part of this snapshot) — format a date as its normalized `YYYY-MM-DD`
date-string. -/
def yyyymmdd (dt : SimpleDate) : String :=
  toString dt.year ++ "-" ++ pad2 dt.month ++ "-" ++ pad2 dt.day

/-- `browsingDate.add(1, "month")` at month granularity: advance the
year/month components (the day component is irrelevant to every use below,
which either resets the date or only reads year/month). -/
def nextMonth (dt : SimpleDate) : SimpleDate :=
  if dt.month = 12 then ⟨dt.year + 1, 1, dt.day⟩ else ⟨dt.year, dt.month + 1, dt.day⟩

/-- A grid cell: `{ day: null | Dayjs; disabled: boolean }`. -/
structure DayObject where
  day : Option SimpleDate
  disabled : Bool
deriving DecidableEq, Repr

/-- The props of `useCalendarDays` (`UseCalendarDaysProps`); `minDate` is kept
for signature fidelity, the spec-modelled availability filter below assigns it
no role (the spec's `computeMonthDays(browsingDate, weekStart, includedDates?,
excludedDates?)` does not list it). -/
structure Props where
  browsingDate : SimpleDate
  weekStart : Nat
  minDate : Option SimpleDate := none
  includedDates : List String := []
  excludedDates : List String := []
  showOneMonth : Bool := false
deriving Repr

/-- Modelled from the spec: `getAvailableDatesInMonth` (imported from
`@calcom/features/calendars/lib/getAvailableDatesInMonth`, whose source is not
part of this repository snapshot).  Per the spec's AvailabilitySet contract, a
day of the browsing month is bookable iff the allow-list is empty (no
restriction supplied) or contains its `YYYY-MM-DD` string; the function
returns the date-strings of the bookable days of the month, in order. -/
def getAvailableDatesInMonth (browsingDate : SimpleDate) (includedDates : List String) :
    List String :=
  ((List.range' 1 (daysInMonth browsingDate.year browsingDate.month)).map
      (fun d => yyyymmdd ⟨browsingDate.year, browsingDate.month, d⟩)).filter
    (fun s => decide (includedDates = []) || decide (s ∈ includedDates))

/-- `const weekdayOfFirst = browsingDate.date(1).day();` -/
def weekdayOfFirst (browsingDate : SimpleDate) : Nat :=
  dayOfWeek { browsingDate with day := 1 }

/-- The length `(weekdayOfFirst - weekStart + 7) % 7` of the leading null
padding (written with truncated subtraction; for `weekStart ≤ 6` this equals
the JavaScript expression, whose argument is then positive). -/
def paddingBeforeFirst (browsingDate : SimpleDate) (weekStart : Nat) : Nat :=
  (weekdayOfFirst browsingDate + 7 - weekStart) % 7

/-- `const includedDatesInMonth = getAvailableDatesInMonth({...})` for the
browsing month. -/
def includedDatesInMonth (p : Props) : List String :=
  getAvailableDatesInMonth p.browsingDate p.includedDates

/-- `const includedDatesNextMonth = getAvailableDatesInMonth({...})` for the
month after the browsing month. -/
def includedDatesNextMonth (p : Props) : List String :=
  getAvailableDatesInMonth (nextMonth p.browsingDate) p.includedDates

/-- `const days: (Dayjs | null)[] = Array((weekdayOfFirst - weekStart + 7) % 7)
.fill(null)` followed by pushing `browsingDate.set("date", day)` for each day
of the month. -/
def days (browsingDate : SimpleDate) (weekStart : Nat) : List (Option SimpleDate) :=
  List.replicate (paddingBeforeFirst browsingDate weekStart) none ++
    (List.range' 1 (daysInMonth browsingDate.year browsingDate.month)).map
      (fun d => some { browsingDate with day := d })

/-- `const nextMonthDays: (Dayjs | null)[] = ...` — same construction for the
next month (note the source reuses the *current* month's `weekdayOfFirst` for
the padding length). -/
def nextMonthDays (browsingDate : SimpleDate) (weekStart : Nat) : List (Option SimpleDate) :=
  List.replicate (paddingBeforeFirst browsingDate weekStart) none ++
    (List.range' 1 (daysInMonth (nextMonth browsingDate).year (nextMonth browsingDate).month)).map
      (fun d => some { nextMonth browsingDate with day := d })

/-- `daysToRenderForTheMonth`: each null cell is rendered disabled; a real day
is disabled when its date-string is not in `includedDatesInMonth` or is in
`excludedDates`. -/
def daysToRenderForTheMonth (p : Props) : List DayObject :=
  (days p.browsingDate p.weekStart).map fun day =>
    match day with
    | none => ⟨none, true⟩
    | some day =>
        ⟨some day,
          (!decide (yyyymmdd day ∈ includedDatesInMonth p)) ||
            decide (yyyymmdd day ∈ p.excludedDates)⟩

/-- `daysToRenderForNextMonth`: a real next-month day is disabled exactly when
its date-string is not in the raw `includedDates` list. -/
def daysToRenderForNextMonth (p : Props) : List DayObject :=
  (nextMonthDays p.browsingDate p.weekStart).map fun day =>
    match day with
    | none => ⟨none, true⟩
    | some day => ⟨some day, !decide (yyyymmdd day ∈ p.includedDates)⟩

/-- `availableDaysForTheMonth = daysToRenderForTheMonth.filter(day => !day.disabled)`. -/
def availableDaysForTheMonth (p : Props) : List DayObject :=
  (daysToRenderForTheMonth p).filter (fun day => !day.disabled)

/-- `shouldRenderNextMonth`: `false` when `showOneMonth`; otherwise requires a
non-empty current-month availability, fewer than 7 available rendered days,
and a non-empty next-month availability. -/
def shouldRenderNextMonth (p : Props) : Bool :=
  if p.showOneMonth then false
  else
    decide (0 < (includedDatesInMonth p).length) &&
      decide ((availableDaysForTheMonth p).length < 7) &&
      decide (0 < (includedDatesNextMonth p).length)

/-- `allDays`: the current month's cells, extended — when the next month is
rendered — by the next month's non-null cells. -/
def allDays (p : Props) : List DayObject :=
  if shouldRenderNextMonth p then
    daysToRenderForTheMonth p ++ (daysToRenderForNextMonth p).filter (fun d => d.day.isSome)
  else daysToRenderForTheMonth p

/-- Fuel-driven chunking: each step slices off `l.take 7` and recurses on
`l.drop 7`.  The fuel only forces structural recursion (so the kernel can
evaluate the function); `l.length` units always suffice because every step
consumes at least one cell. -/
def chunksOf7 : Nat → List DayObject → List (List DayObject)
  | _, [] => []
  | 0, _ :: _ => []
  | fuel + 1, l@(_ :: _) => l.take 7 :: chunksOf7 fuel (l.drop 7)

/-- The chunking loop `for (let i = 0; i < allDays.length; i += 7)
groupedWeeks.push(allDays.slice(i, i + 7))`. -/
def groupIntoWeeks (l : List DayObject) : List (List DayObject) :=
  chunksOf7 l.length l

theorem chunksOf7_congr (f1 : Nat) : ∀ (f2 : Nat) (l : List DayObject),
    l.length ≤ f1 → l.length ≤ f2 → chunksOf7 f1 l = chunksOf7 f2 l := by
  induction f1 with
  | zero =>
      intro f2 l h1 _
      have hl : l = [] := List.eq_nil_of_length_eq_zero (by omega)
      subst hl
      cases f2 <;> rfl
  | succ f1 ih =>
      intro f2 l h1 h2
      cases l with
      | nil => cases f2 <;> rfl
      | cons a t =>
          cases f2 with
          | zero => simp at h2
          | succ f2 =>
              show List.take 7 (a :: t) :: chunksOf7 f1 (List.drop 7 (a :: t)) =
                List.take 7 (a :: t) :: chunksOf7 f2 (List.drop 7 (a :: t))
              have hd : (List.drop 7 (a :: t)).length ≤ f1 := by
                simp only [List.length_drop, List.length_cons] at h1 ⊢
                omega
              have hd2 : (List.drop 7 (a :: t)).length ≤ f2 := by
                simp only [List.length_drop, List.length_cons] at h2 ⊢
                omega
              rw [ih f2 _ hd hd2]

/-- Induction along the chunking recursion: from the empty list and the step
from `l.drop 7` to a non-empty `l`. -/
theorem groupIntoWeeks_rec {motive : List DayObject → Prop} (base : motive [])
    (step : ∀ l : List DayObject, l ≠ [] → motive (List.drop 7 l) → motive l)
    (l : List DayObject) : motive l := by
  have key : ∀ (n : Nat) (l : List DayObject), l.length ≤ n → motive l := by
    intro n
    induction n with
    | zero =>
        intro l hl
        have : l = [] := List.eq_nil_of_length_eq_zero (by omega)
        subst this
        exact base
    | succ n ih =>
        intro l hl
        by_cases h : l = []
        · subst h
          exact base
        · refine step l h (ih _ ?_)
          have : 0 < l.length := List.length_pos.mpr h
          simp only [List.length_drop]
          omega
  exact key l.length l (Nat.le_refl _)

/-- `JavaScript Array.prototype.findIndex`, returning `none` for `-1`. -/
def findIndex (pred : α → Bool) : List α → Option Nat
  | [] => none
  | a :: l => if pred a then some 0 else (findIndex pred l).map (· + 1)

/-- `const hasAvailableDays = (week) => week.some(day => day && !day.disabled)`
(the entries are objects, hence always truthy; the test is `!day.disabled`). -/
def hasAvailableDays (week : List DayObject) : Bool :=
  week.any (fun day => !day.disabled)

/-- The `boundedWeeks` accumulation loop: starting from the accumulated
available-day count `acc`, push each week, add its available days, and stop
right after the week that brings the total to at least 7.  Returns the pushed
weeks together with the final `availableDaysCount`. -/
def accumulateBounded (acc : Nat) : List (List DayObject) → List (List DayObject) × Nat
  | [] => ([], acc)
  | w :: ws =>
      let acc' := acc + (w.filter (fun day => !day.disabled)).length
      if 7 ≤ acc' then ([w], acc')
      else
        let r := accumulateBounded acc' ws
        (w :: r.1, r.2)

/-- The `weeks` memo: chunk `allDays` into weeks; when the month has
availability and the next month is rendered, trim to the window from the first
to the last week with available days, accumulate that window's prefix up to 7
available days, and — when fewer than 5 weeks and fewer than 14 available days
were retained — return instead the 5 weeks starting at the first available
week.  (The source recovers that start index with
`groupedWeeks.findIndex(week => week === boundedWeeks[0])`: reference equality
of the distinct `slice` objects makes that exactly `firstAvailableIndex`, and
`-1` when `boundedWeeks` is empty.) -/
def weeks (p : Props) : List (List DayObject) :=
  let groupedWeeks := groupIntoWeeks (allDays p)
  if (includedDatesInMonth p).length = 0 ∨ shouldRenderNextMonth p = false then groupedWeeks
  else
    match findIndex hasAvailableDays groupedWeeks with
    | none => []
    | some firstAvailableIndex =>
        let lastAvailableIndex :=
          (findIndex hasAvailableDays groupedWeeks.reverse).getD 0
        let adjustedLastAvailableIndex := groupedWeeks.length - 1 - lastAvailableIndex
        let window :=
          (groupedWeeks.drop firstAvailableIndex).take
            (adjustedLastAvailableIndex + 1 - firstAvailableIndex)
        let bounded := accumulateBounded 0 window
        if bounded.1.length < 5 ∧ bounded.2 < 14 then
          (groupedWeeks.drop firstAvailableIndex).take 5
        else bounded.1

/-- The `selected` prop: `Dayjs | Dayjs[] | null | undefined` — nothing
selected, a single date, or an array of dates. -/
inductive Selected where
  | nothing
  | one (d : SimpleDate)
  | many (ds : List SimpleDate)
deriving DecidableEq, Repr

/-- The booker store's `selectedDatesAndTimes` value: an optional map from
event slug to the per-event object whose keys are the selected dates (the
time-slot values are never read by `isActive`, which only takes
`Object.keys`; the date keys are modelled already parsed, i.e.
`dayjs(date)`). -/
abbrev SelectedDatesAndTimes := Option (List (String × List SimpleDate))

/-- Association-list lookup, standing for the property access
`selectedDatesAndTimes[eventSlug]`. -/
def lookupSlug (slug : String) : List (String × List SimpleDate) → Option (List SimpleDate)
  | [] => none
  | (s, ds) :: rest => if s = slug then some ds else lookupSlug slug rest

/-- The multi-date branch of `isActive`: `eventSlug && selectedDatesAndTimes &&
selectedDatesAndTimes[eventSlug] && Object.keys(...).length > 0` guarding
`Object.keys(...).some(date => yyyymmdd(dayjs(date)) === yyyymmdd(day))`. -/
def eventMapMatches (eventSlug : Option String) (selectedDatesAndTimes : SelectedDatesAndTimes)
    (day : SimpleDate) : Bool :=
  match eventSlug, selectedDatesAndTimes with
  | some slug, some sdt =>
      match lookupSlug slug sdt with
      | some dates =>
          if 0 < dates.length then
            dates.any (fun date => decide (yyyymmdd date = yyyymmdd day))
          else false
      | none => false
  | _, _ => false

/-- `Days.isActive(day)`: an array selection is matched element-wise by
date-string; a single selection is matched by date-string and, on mismatch,
control falls through to the per-event map, whose keys are matched by
date-string when `eventSlug` is set and the key set is non-empty; otherwise
`false`. -/
def isActive (selected : Selected) (eventSlug : Option String)
    (selectedDatesAndTimes : SelectedDatesAndTimes) (day : SimpleDate) : Bool :=
  match selected with
  | .many ds => ds.any (fun e => decide (yyyymmdd e = yyyymmdd day))
  | sel =>
      if (match sel with
          | .one s => decide (yyyymmdd s = yyyymmdd day)
          | _ => false) then
        true
      else eventMapMatches eventSlug selectedDatesAndTimes day

/-- The `DatePicker` navigation state: the `autoNavigating` flag together with
the browsing month, counted as a month offset. -/
structure NavState where
  autoNavigating : Bool
  month : Int
deriving DecidableEq, Repr

/-- `changeMonth(newMonth)`: disable auto-navigation, then move the browsing
month by `newMonth` (the `onMonthChange` callback updating the caller-owned
browsing date). -/
def changeMonth (s : NavState) (newMonth : Int) : NavState :=
  ⟨false, s.month + newMonth⟩

/-- The auto-navigate effect: when `autoNavigating` is set, the current month
has no available dates and the next month has some, perform `changeMonth(+1)`;
otherwise clear the `autoNavigating` flag.  `avail m` is the length of
`getAvailableDatesInMonth` for month offset `m`. -/
def autoNavigateEffect (avail : Int → Nat) (s : NavState) : NavState :=
  if s.autoNavigating ∧ avail s.month = 0 ∧ 0 < avail (s.month + 1) then
    changeMonth s 1
  else
    ⟨false, s.month⟩

/-! ## Vocabulary used by theorem statements -/

/-- Strict chronological order on dates (lexicographic on year, month, day). -/
def dateLT (a b : SimpleDate) : Prop :=
  a.year < b.year ∨ (a.year = b.year ∧ (a.month < b.month ∨ (a.month = b.month ∧ a.day < b.day)))

/-- The source's month-transition test for a cell of the rendered grid:
`day?.date() === 1 && day?.month() === browsingDate.add(1, "month").month()`. -/
def isTransitionCell (browsingDate : SimpleDate) (c : DayObject) : Bool :=
  match c.day with
  | some d => decide (d.day = 1) && decide (d.month = (nextMonth browsingDate).month)
  | none => false

/-- Number of available (non-disabled) cells of a week. -/
def weekAvail (w : List DayObject) : Nat :=
  (w.filter (fun day => !day.disabled)).length

/-- Total number of available cells across a list of weeks. -/
def availSum (ws : List (List DayObject)) : Nat :=
  (ws.map weekAvail).sum

/-- The date-strings a selection value can match, per selection shape (array
selections never consult the per-event map; a single selection falls through
to it). -/
def mapKeyStrings (eventSlug : Option String) (sdt : SelectedDatesAndTimes) : List String :=
  match eventSlug, sdt with
  | some slug, some l => ((lookupSlug slug l).getD []).map yyyymmdd
  | _, _ => []

/-- All date-strings consulted by `isActive` for a given selection state. -/
def selectionStrings (sel : Selected) (eventSlug : Option String)
    (sdt : SelectedDatesAndTimes) : List String :=
  match sel with
  | .many ds => ds.map yyyymmdd
  | .one s => yyyymmdd s :: mapKeyStrings eventSlug sdt
  | .nothing => mapKeyStrings eventSlug sdt

/-! ## Structure lemmas about the grid computation -/

theorem groupIntoWeeks_nil : groupIntoWeeks [] = [] := rfl

theorem groupIntoWeeks_cons (l : List DayObject) (h : l ≠ []) :
    groupIntoWeeks l = l.take 7 :: groupIntoWeeks (l.drop 7) := by
  cases l with
  | nil => exact absurd rfl h
  | cons a t =>
      show chunksOf7 (t.length + 1) (a :: t) = _
      show List.take 7 (a :: t) :: chunksOf7 t.length (List.drop 7 (a :: t)) = _
      unfold groupIntoWeeks
      rw [chunksOf7_congr t.length (List.drop 7 (a :: t)).length (List.drop 7 (a :: t))
        (by simp only [List.length_drop, List.length_cons]; omega) (Nat.le_refl _)]

theorem groupIntoWeeks_flatten (l : List DayObject) : (groupIntoWeeks l).flatten = l := by
  induction l using groupIntoWeeks_rec with
  | base => simp [groupIntoWeeks_nil]
  | step l h ih =>
      rw [groupIntoWeeks_cons l h]
      simp [ih]

theorem groupIntoWeeks_week_length (l : List DayObject) :
    ∀ w ∈ groupIntoWeeks l, w.length ≤ 7 := by
  induction l using groupIntoWeeks_rec with
  | base => simp [groupIntoWeeks_nil]
  | step l h ih =>
      rw [groupIntoWeeks_cons l h]
      intro w hw
      rcases List.mem_cons.mp hw with hw | hw
      · subst hw
        simp
      · exact ih w hw

theorem groupIntoWeeks_sublist (l : List DayObject) :
    ∀ w ∈ groupIntoWeeks l, w.Sublist l := by
  induction l using groupIntoWeeks_rec with
  | base => simp [groupIntoWeeks_nil]
  | step l h ih =>
      rw [groupIntoWeeks_cons l h]
      intro w hw
      rcases List.mem_cons.mp hw with hw | hw
      · subst hw
        exact List.take_sublist 7 l
      · exact (ih w hw).trans (List.drop_sublist 7 l)

theorem groupIntoWeeks_length (l : List DayObject) :
    (groupIntoWeeks l).length = (l.length + 6) / 7 := by
  induction l using groupIntoWeeks_rec with
  | base => simp [groupIntoWeeks_nil]
  | step l h ih =>
      rw [groupIntoWeeks_cons l h]
      have hl : 0 < l.length := List.length_pos.mpr h
      simp only [List.length_cons, ih, List.length_drop]
      omega

theorem groupIntoWeeks_getD (l : List DayObject) (i : Nat) (hi : i < l.length) (d : DayObject) :
    ((groupIntoWeeks l).getD (i / 7) []).getD (i % 7) d = l.getD i d := by
  induction l using groupIntoWeeks_rec generalizing i with
  | base => simp at hi
  | step l h ih =>
      rw [groupIntoWeeks_cons l h]
      by_cases h7 : i < 7
      · have hdiv : i / 7 = 0 := Nat.div_eq_of_lt h7
        have hmod : i % 7 = i := Nat.mod_eq_of_lt h7
        rw [hdiv, hmod]
        simp only [List.getD_cons_zero, List.getD_eq_getElem?_getD, List.getElem?_take]
        simp [h7]
      · have hdiv : i / 7 = (i - 7) / 7 + 1 := by omega
        have hmod : i % 7 = (i - 7) % 7 := by omega
        have hlen : i - 7 < (l.drop 7).length := by
          simp only [List.length_drop]
          omega
        rw [hdiv, hmod, List.getD_cons_succ, ih (i - 7) hlen]
        simp only [List.getD_eq_getElem?_getD, List.getElem?_drop]
        congr 2
        omega

theorem findIndex_eq_none_iff (p : α → Bool) (l : List α) :
    findIndex p l = none ↔ ∀ a ∈ l, p a = false := by
  induction l with
  | nil => simp [findIndex]
  | cons a l ih =>
      by_cases hpa : p a
      · simp [findIndex, hpa]
      · have hfa : p a = false := by simpa using hpa
        simp [findIndex, hpa, Option.map_eq_none', ih, List.forall_mem_cons, hfa]

theorem findIndex_eq_some (p : α → Bool) (l : List α) (i : Nat)
    (h : findIndex p l = some i) :
    i < l.length ∧ (∀ d, p (l.getD i d) = true) ∧
      ∀ j, j < i → ∀ d, p (l.getD j d) = false := by
  induction l generalizing i with
  | nil => simp [findIndex] at h
  | cons a l ih =>
      by_cases hpa : p a
      · simp only [findIndex, hpa, if_true] at h
        cases h
        refine ⟨by simp, ?_, ?_⟩
        · intro d
          simpa using hpa
        · intro j hj
          exact absurd hj (by omega)
      · have hfa : p a = false := by simpa using hpa
        simp only [findIndex, hpa, Bool.false_eq_true, if_false, Option.map_eq_some'] at h
        obtain ⟨i0, hi0, rfl⟩ := h
        obtain ⟨hlt, hsat, hmin⟩ := ih i0 hi0
        refine ⟨by simp only [List.length_cons]; omega, ?_, ?_⟩
        · intro d
          simpa using hsat d
        · intro j hj d
          cases j with
          | zero => simpa using hfa
          | succ j0 =>
              simp only [List.getD_cons_succ]
              exact hmin j0 (by omega) d

theorem accumulateBounded_spec (ws : List (List DayObject)) (acc : Nat) (hacc : acc < 7) :
    ∃ k, k ≤ ws.length ∧
      (accumulateBounded acc ws).1 = ws.take k ∧
      (accumulateBounded acc ws).2 = acc + availSum (ws.take k) ∧
      (∀ j, j < k → acc + availSum (ws.take j) < 7) ∧
      (k < ws.length → 7 ≤ acc + availSum (ws.take k)) ∧
      (ws ≠ [] → 0 < k) := by
  induction ws generalizing acc with
  | nil =>
      exact ⟨0, by simp [accumulateBounded, availSum]⟩
  | cons w ws ih =>
      have hab : accumulateBounded acc (w :: ws) =
          if 7 ≤ acc + weekAvail w then ([w], acc + weekAvail w)
          else (w :: (accumulateBounded (acc + weekAvail w) ws).1,
            (accumulateBounded (acc + weekAvail w) ws).2) := rfl
      by_cases hstop : 7 ≤ acc + weekAvail w
      · rw [hab, if_pos hstop]
        refine ⟨1, by simp, by simp, ?_, ?_, ?_, by simp⟩
        · simp [availSum]
        · intro j hj
          have hj0 : j = 0 := by omega
          subst hj0
          simpa [availSum] using hacc
        · intro _
          simpa [availSum] using hstop
      · have hacc2 : acc + weekAvail w < 7 := by omega
        obtain ⟨k, hk, h1, h2, h3, h4, _⟩ := ih (acc + weekAvail w) hacc2
        rw [hab, if_neg hstop]
        refine ⟨k + 1, by simpa using hk, ?_, ?_, ?_, ?_, by simp⟩
        · simp [h1]
        · simp only [h2, List.take_succ_cons, availSum, List.map_cons, List.sum_cons]
          omega
        · intro j hj
          cases j with
          | zero => simpa [availSum] using hacc
          | succ j0 =>
              have := h3 j0 (by omega)
              simp only [List.take_succ_cons, availSum, List.map_cons, List.sum_cons] at this ⊢
              omega
        · intro hlt
          have := h4 (by simpa using hlt)
          simp only [List.take_succ_cons, availSum, List.map_cons, List.sum_cons] at this ⊢
          omega

theorem daysToRenderForTheMonth_eq (p : Props) :
    daysToRenderForTheMonth p =
      List.replicate (paddingBeforeFirst p.browsingDate p.weekStart) ⟨none, true⟩ ++
        (List.range' 1 (daysInMonth p.browsingDate.year p.browsingDate.month)).map
          (fun d =>
            ⟨some ⟨p.browsingDate.year, p.browsingDate.month, d⟩,
              (!decide (yyyymmdd ⟨p.browsingDate.year, p.browsingDate.month, d⟩ ∈
                  includedDatesInMonth p)) ||
                decide (yyyymmdd ⟨p.browsingDate.year, p.browsingDate.month, d⟩ ∈
                  p.excludedDates)⟩) := by
  simp [daysToRenderForTheMonth, days, List.map_replicate, List.map_map]

theorem daysToRenderForNextMonth_eq (p : Props) :
    daysToRenderForNextMonth p =
      List.replicate (paddingBeforeFirst p.browsingDate p.weekStart) ⟨none, true⟩ ++
        (List.range' 1
            (daysInMonth (nextMonth p.browsingDate).year (nextMonth p.browsingDate).month)).map
          (fun d =>
            ⟨some ⟨(nextMonth p.browsingDate).year, (nextMonth p.browsingDate).month, d⟩,
              !decide (yyyymmdd ⟨(nextMonth p.browsingDate).year,
                (nextMonth p.browsingDate).month, d⟩ ∈ p.includedDates)⟩) := by
  simp [daysToRenderForNextMonth, nextMonthDays, List.map_replicate, List.map_map]

theorem nextMonthFiltered_eq (p : Props) :
    (daysToRenderForNextMonth p).filter (fun d => d.day.isSome) =
      (List.range' 1
          (daysInMonth (nextMonth p.browsingDate).year (nextMonth p.browsingDate).month)).map
        (fun d =>
          ⟨some ⟨(nextMonth p.browsingDate).year, (nextMonth p.browsingDate).month, d⟩,
            !decide (yyyymmdd ⟨(nextMonth p.browsingDate).year,
              (nextMonth p.browsingDate).month, d⟩ ∈ p.includedDates)⟩) := by
  rw [daysToRenderForNextMonth_eq]
  rw [List.filter_append, List.filter_replicate, List.filter_map]
  simp [List.filter_eq_self.mpr]

theorem daysToRenderForTheMonth_length (p : Props) :
    (daysToRenderForTheMonth p).length =
      paddingBeforeFirst p.browsingDate p.weekStart +
        daysInMonth p.browsingDate.year p.browsingDate.month := by
  rw [daysToRenderForTheMonth_eq]
  simp

theorem daysInMonth_pos (y m : Nat) : 0 < daysInMonth y m := by
  unfold daysInMonth
  split
  · split <;> omega
  · split <;> omega

theorem weekdayOfFirst_lt (b : SimpleDate) : weekdayOfFirst b < 7 := by
  unfold weekdayOfFirst dayOfWeek
  omega

theorem takeWhile_replicate_none_append (n : Nat) (x : SimpleDate)
    (tl : List (Option SimpleDate)) :
    (List.replicate n (none : Option SimpleDate) ++ some x :: tl).takeWhile
        (fun c => c.isNone) = List.replicate n none := by
  induction n with
  | zero => simp [List.takeWhile_cons]
  | succ n ih => simp [List.replicate_succ, List.takeWhile_cons, ih]

theorem mem_includedDatesInMonth (p : Props) (j : Nat)
    (hj : j ∈ List.range' 1 (daysInMonth p.browsingDate.year p.browsingDate.month)) :
    yyyymmdd ⟨p.browsingDate.year, p.browsingDate.month, j⟩ ∈ includedDatesInMonth p ↔
      p.includedDates = [] ∨
        yyyymmdd ⟨p.browsingDate.year, p.browsingDate.month, j⟩ ∈ p.includedDates := by
  unfold includedDatesInMonth getAvailableDatesInMonth
  rw [List.mem_filter]
  simp only [Bool.or_eq_true, decide_eq_true_eq]
  constructor
  · rintro ⟨-, h⟩
    exact h
  · intro h
    exact ⟨List.mem_map.mpr ⟨j, hj, rfl⟩, h⟩

theorem eventMapMatches_eq_false (eventSlug : Option String) (sdt : SelectedDatesAndTimes)
    (d : SimpleDate) (h : yyyymmdd d ∉ mapKeyStrings eventSlug sdt) :
    eventMapMatches eventSlug sdt d = false := by
  rcases eventSlug with _ | slug
  · rfl
  rcases sdt with _ | l
  · rfl
  rcases hlk : lookupSlug slug l with _ | dates
  · simp [eventMapMatches, hlk]
  · have hkeys : yyyymmdd d ∉ dates.map yyyymmdd := by
      intro hmem
      exact h (by simp [mapKeyStrings, hlk, hmem])
    simp only [eventMapMatches, hlk]
    split
    · rw [List.any_eq_false]
      intro x hx
      simp only [decide_eq_true_eq]
      intro hcontra
      exact hkeys (by rw [← hcontra]; exact List.mem_map_of_mem yyyymmdd hx)
    · rfl

/-! ## Concrete inputs used by counterexamples and witnesses -/

/-- June 2024, week starting Sunday, single-month display forced, no
availability restrictions. -/
def exampleJuneOneMonth : Props :=
  { browsingDate := ⟨2024, 6, 1⟩, weekStart := 0, minDate := none,
    includedDates := [], excludedDates := [], showOneMonth := true }

/-- June 2024 with availability only late in June and early in July, so that
continuation into July is active and the leading fully-disabled weeks are
trimmed away. -/
def exampleJuneLateAvail : Props :=
  { browsingDate := ⟨2024, 6, 1⟩, weekStart := 0, minDate := none,
    includedDates := ["2024-06-28", "2024-06-29", "2024-07-05"], excludedDates := [],
    showOneMonth := false }

/-- June 2024 with exactly one available day per calendar week for seven
consecutive grid weeks (five in June, two in July). -/
def exampleJuneWeekly : Props :=
  { browsingDate := ⟨2024, 6, 1⟩, weekStart := 0, minDate := none,
    includedDates := ["2024-06-01", "2024-06-08", "2024-06-15", "2024-06-22", "2024-06-29",
      "2024-07-06", "2024-07-13"], excludedDates := [], showOneMonth := false }

/-- February 2026 browsed with week start Sunday: the 28-day month starts on a
Sunday, so the first March cell is exactly week-aligned. -/
def exampleFebAligned : Props :=
  { browsingDate := ⟨2026, 2, 1⟩, weekStart := 0, minDate := none,
    includedDates := ["2026-02-10", "2026-03-03"], excludedDates := [], showOneMonth := false }

/-- June 2024 with an includedDates allow-list of exactly two June days. -/
def exampleJuneTwoIncluded : Props :=
  { browsingDate := ⟨2024, 6, 1⟩, weekStart := 0, minDate := none,
    includedDates := ["2024-06-05", "2024-06-06"], excludedDates := [], showOneMonth := false }

/-- June 2024 browsed, with a July date listed in both includedDates and
excludedDates. -/
def exampleJulyOverlap : Props :=
  { browsingDate := ⟨2024, 6, 1⟩, weekStart := 0, minDate := none,
    includedDates := ["2024-07-04"], excludedDates := ["2024-07-04"], showOneMonth := false }

/-! ## Claims -/

/-- Claim C2: `shouldRenderNextMonth` is `true` exactly when single-month
display is not forced, the current month's availability set is non-empty,
fewer than 7 available days remain among the rendered current-month cells, and
the next month's availability set is non-empty; and it is `false` whenever
`showOneMonth` is set, regardless of every availability count. -/
theorem shouldRenderNextMonth_iff :
    (∀ p : Props, shouldRenderNextMonth p = true ↔
        p.showOneMonth = false ∧ includedDatesInMonth p ≠ [] ∧
          (availableDaysForTheMonth p).length < 7 ∧ includedDatesNextMonth p ≠ []) ∧
    ∀ p : Props, shouldRenderNextMonth { p with showOneMonth := true } = false := by
  constructor
  · intro p
    cases hs : p.showOneMonth with
    | true =>
        simp [shouldRenderNextMonth, hs]
    | false =>
        simp only [shouldRenderNextMonth, hs, Bool.false_eq_true, if_false, Bool.and_eq_true,
          decide_eq_true_eq, ← List.length_pos]
        tauto
  · intro p
    simp [shouldRenderNextMonth]

/-- Claim C9: the engine's day computation is deterministic and idempotent —
the whole result record of `useCalendarDays` is a pure function of the props
(the shallow embedding exhibits it as one), so two invocations on structurally
equal inputs give structurally equal outputs. -/
theorem useCalendarDays_deterministic (p : Props) :
    (daysToRenderForTheMonth p, daysToRenderForNextMonth p, shouldRenderNextMonth p,
        includedDatesInMonth p, includedDatesNextMonth p, weeks p) =
      (daysToRenderForTheMonth p, daysToRenderForNextMonth p, shouldRenderNextMonth p,
        includedDatesInMonth p, includedDatesNextMonth p, weeks p) := rfl

/-- Claim C10: a rendered next-month day is enabled iff its date-string occurs
in the raw `includedDates` list; `excludedDates` and `minDate` are never
consulted for next-month days (the computation is invariant under changing
them), so a day listed in both `includedDates` and `excludedDates` renders
enabled. -/
theorem nextMonth_disabled_iff :
    (∀ (p : Props) (c : DayObject), c ∈ daysToRenderForNextMonth p → ∀ d : SimpleDate,
        c.day = some d → (c.disabled = false ↔ yyyymmdd d ∈ p.includedDates)) ∧
    ∀ (p : Props) (e : List String) (m : Option SimpleDate),
      daysToRenderForNextMonth { p with excludedDates := e, minDate := m } =
        daysToRenderForNextMonth p := by
  constructor
  · intro p c hc d hd
    rw [daysToRenderForNextMonth_eq] at hc
    rcases List.mem_append.mp hc with hc | hc
    · have hcell := List.eq_of_mem_replicate hc
      subst hcell
      simp at hd
    · obtain ⟨j, hj, rfl⟩ := List.mem_map.mp hc
      simp only [Option.some.injEq] at hd
      subst hd
      simp
  · intro p e m
    rfl

/-- Witness for claim C10 at `exampleJulyOverlap`: July 4 2024 is listed in
both `includedDates` and `excludedDates`, and its next-month cell renders
enabled. -/
theorem nextMonth_disabled_iff_witness :
    (⟨some ⟨2024, 7, 4⟩, false⟩ : DayObject) ∈ daysToRenderForNextMonth exampleJulyOverlap ∧
      yyyymmdd ⟨2024, 7, 4⟩ ∈ exampleJulyOverlap.excludedDates ∧
      ((false : Bool) = false ↔ yyyymmdd ⟨2024, 7, 4⟩ ∈ exampleJulyOverlap.includedDates) :=
  ⟨by decide, by decide,
    nextMonth_disabled_iff.1 exampleJulyOverlap ⟨some ⟨2024, 7, 4⟩, false⟩ (by decide)
      ⟨2024, 7, 4⟩ rfl⟩

/-- Claim C4: for every browsing month and week-start index (0–6), the day
list consists of exactly `(weekdayOfFirst - weekStart + 7) mod 7` leading null
padding entries followed by one entry per calendar date of the month, so its
total length is `paddingBeforeFirst + daysInMonth`. -/
theorem computeMonthDays_shape (b : SimpleDate) (w : Nat) (hw : w ≤ 6) :
    (days b w).length = paddingBeforeFirst b w + daysInMonth b.year b.month ∧
    paddingBeforeFirst b w = (((weekdayOfFirst b : Int) - (w : Int) + 7) % 7).toNat ∧
    (days b w).takeWhile (fun c => c.isNone) = List.replicate (paddingBeforeFirst b w) none ∧
    (days b w).countP (fun c => c.isSome) = daysInMonth b.year b.month ∧
    ∀ i, i < daysInMonth b.year b.month →
      (days b w).getD (paddingBeforeFirst b w + i) none = some ⟨b.year, b.month, i + 1⟩ := by
  refine ⟨by simp [days], ?_, ?_, ?_, ?_⟩
  · have hwf := weekdayOfFirst_lt b
    unfold paddingBeforeFirst
    omega
  · have hpos := daysInMonth_pos b.year b.month
    have hsucc : daysInMonth b.year b.month = (daysInMonth b.year b.month - 1) + 1 := by omega
    unfold days
    rw [hsucc, List.range'_succ, List.map_cons]
    exact takeWhile_replicate_none_append _ _ _
  · unfold days
    rw [List.countP_append]
    have h1 : (List.replicate (paddingBeforeFirst b w) (none : Option SimpleDate)).countP
        (fun c => c.isSome) = 0 := by
      rw [List.countP_eq_zero]
      intro a ha
      rw [List.eq_of_mem_replicate ha]
      simp
    have h2 : ((List.range' 1 (daysInMonth b.year b.month)).map
        (fun d => some { b with day := d })).countP (fun c => c.isSome) =
          daysInMonth b.year b.month := by
      rw [List.countP_eq_length.mpr]
      · simp
      · intro a ha
        obtain ⟨j, -, rfl⟩ := List.mem_map.mp ha
        simp
    rw [h1, h2, Nat.zero_add]
  · intro i hi
    unfold days
    rw [List.getD_eq_getElem?_getD,
      List.getElem?_append_right (by simp),
      List.length_replicate, Nat.add_sub_cancel_left, List.getElem?_map,
      List.getElem?_range' 1 1 hi]
    simp [Nat.add_comm]

/-- Witness for claim C4: May 2024 starts on a Wednesday (`weekdayOfFirst = 3`),
so with `weekStart = 0` the day list starts with exactly 3 nulls and has
`3 + 31 = 34` entries. -/
theorem computeMonthDays_shape_witness :
    (0 : Nat) ≤ 6 ∧ weekdayOfFirst ⟨2024, 5, 1⟩ = 3 ∧ paddingBeforeFirst ⟨2024, 5, 1⟩ 0 = 3 ∧
      (days ⟨2024, 5, 1⟩ 0).length = 34 ∧
      (days ⟨2024, 5, 1⟩ 0).takeWhile (fun c => c.isNone) =
        List.replicate (paddingBeforeFirst ⟨2024, 5, 1⟩ 0) none ∧
      (days ⟨2024, 5, 1⟩ 0).getD (paddingBeforeFirst ⟨2024, 5, 1⟩ 0 + 4) none =
        some ⟨2024, 5, 5⟩ :=
  ⟨by decide, by decide, by decide, by decide,
    (computeMonthDays_shape ⟨2024, 5, 1⟩ 0 (by decide)).2.2.1,
    (computeMonthDays_shape ⟨2024, 5, 1⟩ 0 (by decide)).2.2.2.2 4 (by decide)⟩

/-- Claim C5: a rendered current-month day is disabled iff `includedDates` is
non-empty and does not contain the day's `YYYY-MM-DD` string, or the string is
in `excludedDates`. -/
theorem currentMonth_disabled_iff (p : Props) (c : DayObject)
    (hc : c ∈ daysToRenderForTheMonth p) (d : SimpleDate) (hd : c.day = some d) :
    c.disabled = true ↔
      (p.includedDates ≠ [] ∧ yyyymmdd d ∉ p.includedDates) ∨
        yyyymmdd d ∈ p.excludedDates := by
  rw [daysToRenderForTheMonth_eq] at hc
  rcases List.mem_append.mp hc with hc | hc
  · have hcell := List.eq_of_mem_replicate hc
    subst hcell
    simp at hd
  · obtain ⟨j, hj, rfl⟩ := List.mem_map.mp hc
    simp only [Option.some.injEq] at hd
    subst hd
    simp only [Bool.or_eq_true, Bool.not_eq_eq_eq_not, Bool.not_true, decide_eq_false_iff_not,
      decide_eq_true_eq, mem_includedDatesInMonth p j hj]
    push_neg
    constructor
    · rintro (⟨h1, h2⟩ | h)
      · exact Or.inl ⟨h1, h2⟩
      · exact Or.inr h
    · rintro (⟨h1, h2⟩ | h)
      · exact Or.inl ⟨h1, h2⟩
      · exact Or.inr h

/-- Witness for claim C5 at `exampleJuneTwoIncluded`: June 7 2024 is not in
the two-element allow-list, hence disabled; and the only enabled June cells
are exactly June 5 and June 6. -/
theorem currentMonth_disabled_iff_witness :
    (⟨some ⟨2024, 6, 7⟩, true⟩ : DayObject) ∈ daysToRenderForTheMonth exampleJuneTwoIncluded ∧
      ((true : Bool) = true ↔
        (exampleJuneTwoIncluded.includedDates ≠ [] ∧
            yyyymmdd ⟨2024, 6, 7⟩ ∉ exampleJuneTwoIncluded.includedDates) ∨
          yyyymmdd ⟨2024, 6, 7⟩ ∈ exampleJuneTwoIncluded.excludedDates) ∧
      ((daysToRenderForTheMonth exampleJuneTwoIncluded).filter (fun c => !c.disabled)).map
          (fun c => c.day) = [some ⟨2024, 6, 5⟩, some ⟨2024, 6, 6⟩] :=
  ⟨by decide,
    currentMonth_disabled_iff exampleJuneTwoIncluded ⟨some ⟨2024, 6, 7⟩, true⟩ (by decide)
      ⟨2024, 6, 7⟩ rfl,
    by decide⟩

/-- Claim C7: `isActive` handles the three selection shapes (single date,
array, per-event map), decides by comparing normalized `YYYY-MM-DD`
date-strings only (it cannot distinguish two dayjs values with the same
formatted date), and returns `false` — never throwing, being a total
function — whenever the candidate's date-string matches none of the
selection's date-strings. -/
theorem isActive_spec :
    (∀ (sel : Selected) (slug : Option String) (sdt : SelectedDatesAndTimes)
        (d e : SimpleDate), yyyymmdd d = yyyymmdd e →
          isActive sel slug sdt d = isActive sel slug sdt e) ∧
    ∀ (sel : Selected) (slug : Option String) (sdt : SelectedDatesAndTimes) (d : SimpleDate),
      yyyymmdd d ∉ selectionStrings sel slug sdt → isActive sel slug sdt d = false := by
  constructor
  · intro sel slug sdt d e h
    cases sel <;> simp only [isActive, eventMapMatches, h]
  · intro sel slug sdt d hnot
    cases sel with
    | many ds =>
        simp only [isActive, List.any_eq_false, decide_eq_true_eq]
        intro x hx hcontra
        refine hnot ?_
        simp only [selectionStrings, ← hcontra]
        exact List.mem_map_of_mem yyyymmdd hx
    | one s =>
        have hne : ¬(yyyymmdd s = yyyymmdd d) := by
          intro hc
          exact hnot (by simp [selectionStrings, ← hc])
        have hmap : yyyymmdd d ∉ mapKeyStrings slug sdt := by
          intro hc
          exact hnot (by simp only [selectionStrings, List.mem_cons]; exact Or.inr hc)
        simp only [isActive, hne, decide_eq_true_eq, if_false]
        exact eventMapMatches_eq_false slug sdt d hmap
    | nothing =>
        have hmap : yyyymmdd d ∉ mapKeyStrings slug sdt := by
          simpa [selectionStrings] using hnot
        simp only [isActive]
        exact eventMapMatches_eq_false slug sdt d hmap

/-- Witness for claim C7: equal date-strings give equal activity, and a
candidate matching none of an array selection's date-strings is inactive. -/
theorem isActive_spec_witness :
    yyyymmdd ⟨2024, 6, 5⟩ = yyyymmdd ⟨2024, 6, 5⟩ ∧
      isActive (.one ⟨2024, 6, 5⟩) none none ⟨2024, 6, 5⟩ =
        isActive (.one ⟨2024, 6, 5⟩) none none ⟨2024, 6, 5⟩ ∧
      yyyymmdd ⟨2024, 6, 7⟩ ∉ selectionStrings (.many [⟨2024, 6, 5⟩]) none none ∧
      isActive (.many [⟨2024, 6, 5⟩]) none none ⟨2024, 6, 7⟩ = false :=
  ⟨rfl, isActive_spec.1 (.one ⟨2024, 6, 5⟩) none none ⟨2024, 6, 5⟩ ⟨2024, 6, 5⟩ rfl,
    by decide, isActive_spec.2 (.many [⟨2024, 6, 5⟩]) none none ⟨2024, 6, 7⟩ (by decide)⟩

/-- Claim C8 (counterexample): the claimed trigger "current AND next month
both have zero/near-zero available days" is wrong on both sides: with both
months at zero availability no auto-advance happens (the state goes straight
to Idle with the month unchanged), while with the next month at 10 available
days — not near zero — the effect does auto-advance. -/
theorem autoNavigate_counterexample :
    autoNavigateEffect (fun _ => 0) ⟨true, 0⟩ = ⟨false, 0⟩ ∧
      autoNavigateEffect (fun m => if m = 0 then 0 else 10) ⟨true, 0⟩ = ⟨false, 1⟩ := by
  constructor <;> decide

/-- Claim C8 (amended): the effect auto-advances (by exactly one month) iff
auto-navigation is enabled, the current month has zero available dates and the
next month has at least one; after any effect run the auto flag is cleared,
`changeMonth` always clears it, and after a manual `changeMonth` the effect
never moves the month again. -/
theorem autoNavigate_spec :
    (∀ (avail : Int → Nat) (s : NavState),
        (autoNavigateEffect avail s).month ≠ s.month ↔
          s.autoNavigating = true ∧ avail s.month = 0 ∧ 0 < avail (s.month + 1)) ∧
    (∀ (avail : Int → Nat) (s : NavState),
        (autoNavigateEffect avail s).month = s.month ∨
          (autoNavigateEffect avail s).month = s.month + 1) ∧
    (∀ (avail : Int → Nat) (s : NavState), (autoNavigateEffect avail s).autoNavigating = false) ∧
    (∀ (s : NavState) (d : Int), (changeMonth s d).autoNavigating = false) ∧
    ∀ (avail : Int → Nat) (s : NavState) (d : Int),
      (autoNavigateEffect avail (changeMonth s d)).month = (changeMonth s d).month := by
  refine ⟨?_, ?_, ?_, ?_, ?_⟩
  · intro avail s
    unfold autoNavigateEffect
    split
    · rename_i hcond
      exact iff_of_true (by simp [changeMonth]) hcond
    · rename_i hcond
      exact iff_of_false (by simp) hcond
  · intro avail s
    unfold autoNavigateEffect
    split
    · exact Or.inr rfl
    · exact Or.inl rfl
  · intro avail s
    unfold autoNavigateEffect
    split <;> rfl
  · intro s d
    rfl
  · intro avail s d
    unfold autoNavigateEffect
    rw [if_neg]
    rintro ⟨hauto, -⟩
    simp [changeMonth] at hauto

/-- Claim C1 (counterexample): the week grouping does not right-pad the final
week to length 7 (June 2024 with Sunday week start yields a final group of one
cell), and with continuation trimming active whole weeks of non-null days are
dropped, so the concatenation of the returned weeks' non-null entries differs
from the input sequence's non-null entries. -/
theorem groupIntoWeeks_counterexample :
    (weeks exampleJuneOneMonth).all (fun w => decide (w.length = 7)) = false ∧
      (weeks exampleJuneLateAvail).flatten.filterMap (fun c => c.day) ≠
        (allDays exampleJuneLateAvail).filterMap (fun c => c.day) := by
  constructor
  · decide
  · decide

theorem groupIntoWeeks_week_pos (l : List DayObject) :
    ∀ w ∈ groupIntoWeeks l, 0 < w.length := by
  induction l using groupIntoWeeks_rec with
  | base => simp [groupIntoWeeks_nil]
  | step l h ih =>
      rw [groupIntoWeeks_cons l h]
      intro w hw
      rcases List.mem_cons.mp hw with hw | hw
      · subst hw
        have := List.length_pos.mpr h
        simp only [List.length_take]
        omega
      · exact ih w hw

theorem groupIntoWeeks_nonfinal_length (l : List DayObject) :
    ∀ i, i + 1 < (groupIntoWeeks l).length → ((groupIntoWeeks l).getD i []).length = 7 := by
  induction l using groupIntoWeeks_rec with
  | base =>
      intro i hi
      rw [groupIntoWeeks_nil] at hi
      simp at hi
  | step l h ih =>
      intro i hi
      rw [groupIntoWeeks_cons l h] at hi ⊢
      cases i with
      | zero =>
          simp only [List.length_cons] at hi
          have hrest : groupIntoWeeks (l.drop 7) ≠ [] := by
            intro he
            rw [he] at hi
            simp at hi
          have hdrop : l.drop 7 ≠ [] := by
            intro he
            rw [he, groupIntoWeeks_nil] at hrest
            exact hrest rfl
          have hlen : 7 < l.length := by
            have := List.length_pos.mpr hdrop
            simp only [List.length_drop] at this
            omega
          simp only [List.getD_cons_zero, List.length_take]
          omega
      | succ i0 =>
          simp only [List.length_cons] at hi
          rw [List.getD_cons_succ]
          exact ih i0 (by omega)

/-- Claim C1 (amended): the week grouping chunks the flat day sequence into
consecutive non-empty groups in order, every group except possibly the final
one having length exactly 7 (the final group may be shorter, and no null
padding is added), and the concatenation of the groups is exactly the input
sequence — so the non-null entries are preserved in order, with no day
dropped; and whenever the trimming branch is inactive (the month's
availability is empty or continuation is not rendered, which covers forced
single-month display) the `weeks` output is exactly that chunking. -/
theorem groupIntoWeeks_chunks :
    (∀ l : List DayObject,
        (∀ w ∈ groupIntoWeeks l, 0 < w.length ∧ w.length ≤ 7) ∧
        (∀ i, i + 1 < (groupIntoWeeks l).length → ((groupIntoWeeks l).getD i []).length = 7) ∧
        (groupIntoWeeks l).flatten = l) ∧
    ∀ p : Props,
      (includedDatesInMonth p).length = 0 ∨ shouldRenderNextMonth p = false →
        weeks p = groupIntoWeeks (allDays p) := by
  constructor
  · intro l
    refine ⟨?_, groupIntoWeeks_nonfinal_length l, groupIntoWeeks_flatten l⟩
    intro w hw
    exact ⟨groupIntoWeeks_week_pos l w hw, groupIntoWeeks_week_length l w hw⟩
  · intro p hp
    simp only [weeks]
    rw [if_pos hp]

/-- Witness for claim C1 (amended) at `exampleJuneOneMonth` (single-month
display forced, so continuation is not rendered): `weeks` is the plain
chunking, the chunks flatten back to the input, and the first (non-final)
chunk has length exactly 7. -/
theorem groupIntoWeeks_chunks_witness :
    weeks exampleJuneOneMonth = groupIntoWeeks (allDays exampleJuneOneMonth) ∧
      (groupIntoWeeks (allDays exampleJuneOneMonth)).flatten = allDays exampleJuneOneMonth ∧
      ((groupIntoWeeks (allDays exampleJuneOneMonth)).getD 0 []).length = 7 :=
  ⟨groupIntoWeeks_chunks.2 exampleJuneOneMonth (Or.inr (by decide)),
    (groupIntoWeeks_chunks.1 (allDays exampleJuneOneMonth)).2.2,
    (groupIntoWeeks_chunks.1 (allDays exampleJuneOneMonth)).2.1 0 (by decide)⟩

/-- `adjustedLastAvailableIndex`: the index of the last week with an available
day, recovered — as in the source — from a `findIndex` over the reversed week
list. -/
def adjustedLastIndex (p : Props) : Nat :=
  (groupIntoWeeks (allDays p)).length - 1 -
    (findIndex hasAvailableDays (groupIntoWeeks (allDays p)).reverse).getD 0

/-- The window of weeks from the first available week `f` to the last
available week, inclusive. -/
def trimWindow (p : Props) (f : Nat) : List (List DayObject) :=
  ((groupIntoWeeks (allDays p)).drop f).take (adjustedLastIndex p + 1 - f)

theorem weeks_eq_of_findIndex (p : Props) (f : Nat)
    (hcond : ¬((includedDatesInMonth p).length = 0 ∨ shouldRenderNextMonth p = false))
    (hf : findIndex hasAvailableDays (groupIntoWeeks (allDays p)) = some f) :
    weeks p =
      if (accumulateBounded 0 (trimWindow p f)).1.length < 5 ∧
          (accumulateBounded 0 (trimWindow p f)).2 < 14 then
        ((groupIntoWeeks (allDays p)).drop f).take 5
      else (accumulateBounded 0 (trimWindow p f)).1 := by
  simp only [weeks]
  rw [if_neg hcond, hf]
  rfl

/-- Claim C3 (counterexample): at `exampleJuneWeekly` (one available day per
grid week for seven weeks), continuation is active and the retained window
grows to 7 weeks, even though at the 5-week mark only 5 available days were
visible — so the window expansion has no "5 weeks, whichever comes first"
stopping rule. -/
theorem weeks_trim_counterexample :
    shouldRenderNextMonth exampleJuneWeekly = true ∧
      (weeks exampleJuneWeekly).length = 7 ∧
      availSum ((weeks exampleJuneWeekly).take 5) = 5 := by
  refine ⟨by decide, by decide, by decide⟩

/-- Claim C3 (amended): when continuation is active and `f` is the index of
the first week with an available day, every week before `f` and every week
after `adjustedLastIndex` is fully disabled; the `boundedWeeks` loop retains
the shortest prefix of the window `f..adjustedLastIndex` accumulating at least
7 available days (the whole window when it never reaches 7), with no 5-week
cap during the accumulation; and the result is replaced by the 5 consecutive
weeks starting at `f` exactly when the retained prefix has fewer than 5 weeks
and fewer than 14 accumulated available days. -/
theorem weeks_trim_characterization (p : Props) (f : Nat)
    (hne : (includedDatesInMonth p).length ≠ 0)
    (hrender : shouldRenderNextMonth p = true)
    (hf : findIndex hasAvailableDays (groupIntoWeeks (allDays p)) = some f) :
    (∀ j, j < f → hasAvailableDays ((groupIntoWeeks (allDays p)).getD j []) = false) ∧
    (∀ j, adjustedLastIndex p < j → j < (groupIntoWeeks (allDays p)).length →
        hasAvailableDays ((groupIntoWeeks (allDays p)).getD j []) = false) ∧
    (∃ k, k ≤ (trimWindow p f).length ∧ 0 < k ∧
        (accumulateBounded 0 (trimWindow p f)).1 = (trimWindow p f).take k ∧
        (accumulateBounded 0 (trimWindow p f)).2 = availSum ((trimWindow p f).take k) ∧
        (∀ j, j < k → availSum ((trimWindow p f).take j) < 7) ∧
        (k < (trimWindow p f).length → 7 ≤ availSum ((trimWindow p f).take k))) ∧
    weeks p =
      if (accumulateBounded 0 (trimWindow p f)).1.length < 5 ∧
          (accumulateBounded 0 (trimWindow p f)).2 < 14 then
        ((groupIntoWeeks (allDays p)).drop f).take 5
      else (accumulateBounded 0 (trimWindow p f)).1 := by
  obtain ⟨hflen, hfsat, hfmin⟩ := findIndex_eq_some _ _ _ hf
  have hgmem : (groupIntoWeeks (allDays p)).getD f [] ∈ groupIntoWeeks (allDays p) := by
    rw [List.getD_eq_getElem _ _ hflen]
    exact List.getElem_mem hflen
  obtain ⟨i, hrev⟩ :
      ∃ i, findIndex hasAvailableDays (groupIntoWeeks (allDays p)).reverse = some i := by
    cases hrevcase : findIndex hasAvailableDays (groupIntoWeeks (allDays p)).reverse with
    | none =>
        exfalso
        have hnone := (findIndex_eq_none_iff _ _).mp hrevcase
          ((groupIntoWeeks (allDays p)).getD f []) (List.mem_reverse.mpr hgmem)
        rw [hfsat []] at hnone
        exact Bool.noConfusion hnone
    | some i => exact ⟨i, rfl⟩
  obtain ⟨hilen, hisat, himin⟩ := findIndex_eq_some _ _ _ hrev
  rw [List.length_reverse] at hilen
  have hrevget : ∀ j, j < (groupIntoWeeks (allDays p)).length →
      (groupIntoWeeks (allDays p)).reverse.getD j ([] : List DayObject) =
        (groupIntoWeeks (allDays p)).getD ((groupIntoWeeks (allDays p)).length - 1 - j) [] := by
    intro j hj
    rw [List.getD_eq_getElem?_getD, List.getD_eq_getElem?_getD, List.getElem?_reverse hj]
  have hlast : adjustedLastIndex p = (groupIntoWeeks (allDays p)).length - 1 - i := by
    unfold adjustedLastIndex
    rw [hrev]
    rfl
  have hfle : f ≤ adjustedLastIndex p := by
    rw [hlast]
    by_contra hcon
    push_neg at hcon
    have hj : (groupIntoWeeks (allDays p)).length - 1 - f < i := by omega
    have hmin := himin _ hj []
    rw [hrevget _ (by omega)] at hmin
    have hfix : (groupIntoWeeks (allDays p)).length - 1 -
        ((groupIntoWeeks (allDays p)).length - 1 - f) = f := by omega
    rw [hfix, hfsat []] at hmin
    exact Bool.noConfusion hmin
  have hlastlt : adjustedLastIndex p < (groupIntoWeeks (allDays p)).length := by
    rw [hlast]
    omega
  have hwlen : (trimWindow p f).length = adjustedLastIndex p + 1 - f := by
    unfold trimWindow
    rw [List.length_take, List.length_drop]
    omega
  refine ⟨?_, ?_, ?_, ?_⟩
  · intro j hj
    exact hfmin j hj []
  · intro j hjl hjlen
    rw [hlast] at hjl
    have hj2 : (groupIntoWeeks (allDays p)).length - 1 - j < i := by omega
    have hmin := himin _ hj2 []
    rw [hrevget _ (by omega)] at hmin
    have hfix : (groupIntoWeeks (allDays p)).length - 1 -
        ((groupIntoWeeks (allDays p)).length - 1 - j) = j := by omega
    rw [hfix] at hmin
    exact hmin
  · have hwne : trimWindow p f ≠ [] := by
      rw [← List.length_pos, hwlen]
      omega
    obtain ⟨k, hk1, hk2, hk3, hk4, hk5, hk6⟩ :=
      accumulateBounded_spec (trimWindow p f) 0 (by omega)
    refine ⟨k, hk1, hk6 hwne, hk2, by simpa using hk3, ?_, ?_⟩
    · intro j hj
      have := hk4 j hj
      omega
    · intro hlt
      have := hk5 hlt
      omega
  · refine weeks_eq_of_findIndex p f ?_ hf
    push_neg
    exact ⟨hne, by simp [hrender]⟩

/-- Witness for claim C3 (amended) at `exampleJuneWeekly`, instantiating the
final conjunct with first available week index 0. -/
theorem weeks_trim_characterization_witness :
    weeks exampleJuneWeekly =
      if (accumulateBounded 0 (trimWindow exampleJuneWeekly 0)).1.length < 5 ∧
          (accumulateBounded 0 (trimWindow exampleJuneWeekly 0)).2 < 14 then
        ((groupIntoWeeks (allDays exampleJuneWeekly)).drop 0).take 5
      else (accumulateBounded 0 (trimWindow exampleJuneWeekly 0)).1 :=
  (weeks_trim_characterization exampleJuneWeekly 0 (by decide) (by decide) (by decide)).2.2.2

/-- Index in the combined day sequence of the first next-month cell: the total
number of current-month cells. -/
def boundaryIndex (p : Props) : Nat := (daysToRenderForTheMonth p).length

/-- The cutover week: the week of the combined day sequence containing the
cell of day 1 of the next month. -/
def cutoverWeek (p : Props) : List DayObject :=
  (groupIntoWeeks (allDays p)).getD (boundaryIndex p / 7) []

theorem nextMonth_month_ne (b : SimpleDate) : b.month ≠ (nextMonth b).month := by
  by_cases hm : b.month = 12
  · simp [nextMonth, hm]
  · simp only [nextMonth, hm, if_false]
    omega

theorem groupIntoWeeks_getD_length (l : List DayObject) (i : Nat) (hi : i < l.length) :
    i % 7 < ((groupIntoWeeks l).getD (i / 7) []).length := by
  induction l using groupIntoWeeks_rec generalizing i with
  | base => simp at hi
  | step l h ih =>
      rw [groupIntoWeeks_cons l h]
      by_cases h7 : i < 7
      · rw [Nat.div_eq_of_lt h7, Nat.mod_eq_of_lt h7]
        simp only [List.getD_cons_zero, List.length_take]
        omega
      · have hdiv : i / 7 = (i - 7) / 7 + 1 := by omega
        have hmod : i % 7 = (i - 7) % 7 := by omega
        rw [hdiv, hmod, List.getD_cons_succ]
        exact ih (i - 7) (by simp only [List.length_drop]; omega)

theorem allDays_eq_append (p : Props) (h : shouldRenderNextMonth p = true) :
    allDays p = daysToRenderForTheMonth p ++
      (List.range' 1
          (daysInMonth (nextMonth p.browsingDate).year (nextMonth p.browsingDate).month)).map
        (fun d =>
          ⟨some ⟨(nextMonth p.browsingDate).year, (nextMonth p.browsingDate).month, d⟩,
            !decide (yyyymmdd ⟨(nextMonth p.browsingDate).year,
              (nextMonth p.browsingDate).month, d⟩ ∈ p.includedDates)⟩) := by
  unfold allDays
  rw [if_pos h, nextMonthFiltered_eq]

theorem allDays_length (p : Props) (h : shouldRenderNextMonth p = true) :
    (allDays p).length = boundaryIndex p +
      daysInMonth (nextMonth p.browsingDate).year (nextMonth p.browsingDate).month := by
  rw [allDays_eq_append p h]
  simp [boundaryIndex]

theorem boundaryIndex_lt (p : Props) (h : shouldRenderNextMonth p = true) :
    boundaryIndex p < (allDays p).length := by
  rw [allDays_length p h]
  have := daysInMonth_pos (nextMonth p.browsingDate).year (nextMonth p.browsingDate).month
  omega

theorem allDays_getD_boundary (p : Props) (h : shouldRenderNextMonth p = true) :
    (allDays p).getD (boundaryIndex p) ⟨none, true⟩ =
      ⟨some ⟨(nextMonth p.browsingDate).year, (nextMonth p.browsingDate).month, 1⟩,
        !decide (yyyymmdd ⟨(nextMonth p.browsingDate).year,
          (nextMonth p.browsingDate).month, 1⟩ ∈ p.includedDates)⟩ := by
  unfold boundaryIndex
  rw [allDays_eq_append p h, List.getD_eq_getElem?_getD,
    List.getElem?_append_right (Nat.le_refl (daysToRenderForTheMonth p).length), Nat.sub_self]
  have hpos := daysInMonth_pos (nextMonth p.browsingDate).year (nextMonth p.browsingDate).month
  have hsucc : daysInMonth (nextMonth p.browsingDate).year (nextMonth p.browsingDate).month =
      (daysInMonth (nextMonth p.browsingDate).year (nextMonth p.browsingDate).month - 1) + 1 := by
    omega
  rw [hsucc, List.range'_succ]
  simp

theorem filterMap_day_cells (g : Nat → SimpleDate) (dis : Nat → Bool) (l : List Nat) :
    List.filterMap (fun c => c.day) (l.map (fun d => (⟨some (g d), dis d⟩ : DayObject))) =
      l.map g := by
  induction l with
  | nil => rfl
  | cons a t ih => simp [List.filterMap_cons, ih]

theorem pairwise_dateLT_month (y m s n : Nat) :
    ((List.range' s n).map (fun d => (⟨y, m, d⟩ : SimpleDate))).Pairwise dateLT := by
  rw [List.pairwise_map]
  exact (List.pairwise_lt_range' s n 1 Nat.one_pos).imp
    (fun hlt => Or.inr ⟨rfl, Or.inr ⟨rfl, hlt⟩⟩)

theorem allDays_filterMap_pairwise (p : Props) (h : shouldRenderNextMonth p = true) :
    ((allDays p).filterMap (fun c => c.day)).Pairwise dateLT := by
  rw [allDays_eq_append p h, List.filterMap_append, daysToRenderForTheMonth_eq,
    List.filterMap_append]
  have hrep : List.filterMap (fun c => c.day)
      (List.replicate (paddingBeforeFirst p.browsingDate p.weekStart)
        (⟨none, true⟩ : DayObject)) = [] := by
    simp [List.filterMap_replicate]
  rw [hrep, List.nil_append, filterMap_day_cells, filterMap_day_cells]
  rw [List.pairwise_append]
  refine ⟨pairwise_dateLT_month _ _ _ _, pairwise_dateLT_month _ _ _ _, ?_⟩
  intro a ha b hb
  obtain ⟨da, -, rfl⟩ := List.mem_map.mp ha
  obtain ⟨db, -, rfl⟩ := List.mem_map.mp hb
  by_cases hm : p.browsingDate.month = 12
  · simp only [nextMonth, hm, if_true]
    exact Or.inl (Nat.lt_succ_self _)
  · simp only [nextMonth, hm, if_false]
    exact Or.inr ⟨rfl, Or.inl (Nat.lt_succ_self _)⟩

theorem countP_transition_allDays (p : Props) (h : shouldRenderNextMonth p = true) :
    (allDays p).countP (isTransitionCell p.browsingDate) = 1 := by
  rw [allDays_eq_append p h, List.countP_append]
  have h1 : (daysToRenderForTheMonth p).countP (isTransitionCell p.browsingDate) = 0 := by
    rw [List.countP_eq_zero]
    intro c hc
    rw [daysToRenderForTheMonth_eq] at hc
    rcases List.mem_append.mp hc with hc | hc
    · rw [List.eq_of_mem_replicate hc]
      simp [isTransitionCell]
    · obtain ⟨j, hj, rfl⟩ := List.mem_map.mp hc
      have hne := nextMonth_month_ne p.browsingDate
      simp [isTransitionCell, hne]
  have h2 : ((List.range' 1
      (daysInMonth (nextMonth p.browsingDate).year (nextMonth p.browsingDate).month)).map
        (fun d =>
          (⟨some ⟨(nextMonth p.browsingDate).year, (nextMonth p.browsingDate).month, d⟩,
            !decide (yyyymmdd ⟨(nextMonth p.browsingDate).year,
              (nextMonth p.browsingDate).month, d⟩ ∈ p.includedDates)⟩ : DayObject))).countP
        (isTransitionCell p.browsingDate) = 1 := by
    rw [List.countP_map]
    have hpos := daysInMonth_pos (nextMonth p.browsingDate).year (nextMonth p.browsingDate).month
    have hsucc : daysInMonth (nextMonth p.browsingDate).year (nextMonth p.browsingDate).month =
        (daysInMonth (nextMonth p.browsingDate).year (nextMonth p.browsingDate).month - 1) +
          1 := by
      omega
    rw [hsucc, List.range'_succ, List.countP_cons]
    have hhead : ((isTransitionCell p.browsingDate) ∘
        (fun d =>
          (⟨some ⟨(nextMonth p.browsingDate).year, (nextMonth p.browsingDate).month, d⟩,
            !decide (yyyymmdd ⟨(nextMonth p.browsingDate).year,
              (nextMonth p.browsingDate).month, d⟩ ∈ p.includedDates)⟩ : DayObject))) 1 =
        true := by
      simp [isTransitionCell]
    have htail : (List.range' 2
        (daysInMonth (nextMonth p.browsingDate).year (nextMonth p.browsingDate).month - 1)).countP
          ((isTransitionCell p.browsingDate) ∘
            (fun d =>
              (⟨some ⟨(nextMonth p.browsingDate).year, (nextMonth p.browsingDate).month, d⟩,
                !decide (yyyymmdd ⟨(nextMonth p.browsingDate).year,
                  (nextMonth p.browsingDate).month, d⟩ ∈ p.includedDates)⟩ : DayObject))) =
          0 := by
      rw [List.countP_eq_zero]
      intro j hj
      have := (List.mem_range'_1.mp hj).1
      simp only [Function.comp, isTransitionCell]
      simp only [Bool.and_eq_true, decide_eq_true_eq, not_and]
      intro hj1
      omega
    rw [htail, hhead]
    simp
  rw [h1, h2]

theorem cutoverWeek_mem (p : Props) (h : shouldRenderNextMonth p = true) :
    cutoverWeek p ∈ groupIntoWeeks (allDays p) := by
  have hN := boundaryIndex_lt p h
  have hklen : boundaryIndex p / 7 < (groupIntoWeeks (allDays p)).length := by
    rw [groupIntoWeeks_length]
    omega
  unfold cutoverWeek
  rw [List.getD_eq_getElem _ _ hklen]
  exact List.getElem_mem hklen

theorem cutoverWeek_getD_boundary (p : Props) (h : shouldRenderNextMonth p = true) :
    (cutoverWeek p).getD (boundaryIndex p % 7) ⟨none, true⟩ =
      ⟨some ⟨(nextMonth p.browsingDate).year, (nextMonth p.browsingDate).month, 1⟩,
        !decide (yyyymmdd ⟨(nextMonth p.browsingDate).year,
          (nextMonth p.browsingDate).month, 1⟩ ∈ p.includedDates)⟩ := by
  have hN := boundaryIndex_lt p h
  unfold cutoverWeek
  rw [groupIntoWeeks_getD (allDays p) (boundaryIndex p) hN ⟨none, true⟩,
    allDays_getD_boundary p h]

theorem cutoverWeek_countP (p : Props) (h : shouldRenderNextMonth p = true) :
    (cutoverWeek p).countP (isTransitionCell p.browsingDate) = 1 := by
  have hN := boundaryIndex_lt p h
  have hsum : ((groupIntoWeeks (allDays p)).map
      (List.countP (isTransitionCell p.browsingDate))).sum = 1 := by
    rw [← List.countP_flatten, groupIntoWeeks_flatten, countP_transition_allDays p h]
  have hle : (cutoverWeek p).countP (isTransitionCell p.browsingDate) ≤ 1 := by
    rw [← hsum]
    exact List.single_le_sum (fun x _ => Nat.zero_le x) _
      (List.mem_map_of_mem _ (cutoverWeek_mem p h))
  have hge : 0 < (cutoverWeek p).countP (isTransitionCell p.browsingDate) := by
    rw [List.countP_pos_iff]
    refine ⟨(cutoverWeek p).getD (boundaryIndex p % 7) ⟨none, true⟩, ?_, ?_⟩
    · have hlen := groupIntoWeeks_getD_length (allDays p) (boundaryIndex p) hN
      unfold cutoverWeek at hlen ⊢
      rw [List.getD_eq_getElem _ _ hlen]
      exact List.getElem_mem hlen
    · rw [cutoverWeek_getD_boundary p h]
      simp [isTransitionCell]
  omega

theorem allDays_getD_last_current (p : Props) (h : shouldRenderNextMonth p = true) :
    ((allDays p).getD (boundaryIndex p - 1) ⟨none, true⟩).day =
      some ⟨p.browsingDate.year, p.browsingDate.month,
        daysInMonth p.browsingDate.year p.browsingDate.month⟩ := by
  have hpos := daysInMonth_pos p.browsingDate.year p.browsingDate.month
  have hlen := daysToRenderForTheMonth_length p
  have hlt : boundaryIndex p - 1 < (daysToRenderForTheMonth p).length := by
    unfold boundaryIndex
    omega
  rw [allDays_eq_append p h, List.getD_eq_getElem?_getD, List.getElem?_append_left hlt]
  rw [daysToRenderForTheMonth_eq, List.getElem?_append_right
    (by simp only [List.length_replicate]; unfold boundaryIndex; omega), List.getElem?_map]
  have hidx : boundaryIndex p - 1 -
      (List.replicate (paddingBeforeFirst p.browsingDate p.weekStart)
        (⟨none, true⟩ : DayObject)).length =
      daysInMonth p.browsingDate.year p.browsingDate.month - 1 := by
    simp only [List.length_replicate]
    unfold boundaryIndex
    omega
  rw [hidx, List.getElem?_range' 1 1 (by omega)]
  have harith : 1 + 1 * (daysInMonth p.browsingDate.year p.browsingDate.month - 1) =
      daysInMonth p.browsingDate.year p.browsingDate.month := by
    omega
  rw [harith]
  rfl

/-- Claim C6 (amended): when continuation is active, the cutover week — the
week of the combined day sequence containing the month boundary — holds the
day-1 cell of the next month at the fixed position `boundaryIndex mod 7`, that
cell is the unique month-transition cell of the week, the week's non-null
cells are strictly ascending by date, and — provided the boundary is not
week-aligned, i.e. `boundaryIndex mod 7 ≠ 0` — the week contains cells of both
the browsing month and the next month. -/
theorem cutover_week_structure (p : Props) (h : shouldRenderNextMonth p = true) :
    (cutoverWeek p).getD (boundaryIndex p % 7) ⟨none, true⟩ =
        ⟨some ⟨(nextMonth p.browsingDate).year, (nextMonth p.browsingDate).month, 1⟩,
          !decide (yyyymmdd ⟨(nextMonth p.browsingDate).year,
            (nextMonth p.browsingDate).month, 1⟩ ∈ p.includedDates)⟩ ∧
    (cutoverWeek p).countP (isTransitionCell p.browsingDate) = 1 ∧
    ((cutoverWeek p).filterMap (fun c => c.day)).Pairwise dateLT ∧
    (boundaryIndex p % 7 ≠ 0 →
      (∃ c ∈ cutoverWeek p, ∃ d, c.day = some d ∧
          d.year = p.browsingDate.year ∧ d.month = p.browsingDate.month) ∧
      ∃ c ∈ cutoverWeek p, ∃ d, c.day = some d ∧
        d.month = (nextMonth p.browsingDate).month) := by
  have hN := boundaryIndex_lt p h
  refine ⟨cutoverWeek_getD_boundary p h, cutoverWeek_countP p h, ?_, ?_⟩
  · have hsub : (cutoverWeek p).Sublist (allDays p) :=
      groupIntoWeeks_sublist (allDays p) _ (cutoverWeek_mem p h)
    exact List.Pairwise.sublist (List.Sublist.filterMap (fun c => c.day) hsub)
      (allDays_filterMap_pairwise p h)
  · intro hmod
    constructor
    · have hN1 : boundaryIndex p - 1 < (allDays p).length := by omega
      have hdiv : (boundaryIndex p - 1) / 7 = boundaryIndex p / 7 := by omega
      have hlen := groupIntoWeeks_getD_length (allDays p) (boundaryIndex p - 1) hN1
      have hget := groupIntoWeeks_getD (allDays p) (boundaryIndex p - 1) hN1 ⟨none, true⟩
      rw [hdiv] at hlen hget
      refine ⟨(cutoverWeek p).getD ((boundaryIndex p - 1) % 7) ⟨none, true⟩, ?_, ?_⟩
      · unfold cutoverWeek
        rw [List.getD_eq_getElem _ _ hlen]
        exact List.getElem_mem hlen
      · refine ⟨⟨p.browsingDate.year, p.browsingDate.month,
          daysInMonth p.browsingDate.year p.browsingDate.month⟩, ?_, rfl, rfl⟩
        unfold cutoverWeek
        rw [hget, allDays_getD_last_current p h]
    · have hlen := groupIntoWeeks_getD_length (allDays p) (boundaryIndex p) hN
      refine ⟨(cutoverWeek p).getD (boundaryIndex p % 7) ⟨none, true⟩, ?_, ?_⟩
      · unfold cutoverWeek
        rw [List.getD_eq_getElem _ _ hlen]
        exact List.getElem_mem hlen
      · refine ⟨⟨(nextMonth p.browsingDate).year, (nextMonth p.browsingDate).month, 1⟩, ?_, rfl⟩
        rw [cutoverWeek_getD_boundary p h]

/-- Claim C6 (counterexample): at `exampleFebAligned` continuation is active
and the week containing the month-boundary cell (March 1 2026) consists
exclusively of March cells — February 2026 fills its grid weeks exactly, so
the cutover week does not contain cells from two distinct months. -/
theorem cutover_counterexample :
    shouldRenderNextMonth exampleFebAligned = true ∧
      (cutoverWeek exampleFebAligned).countP (isTransitionCell ⟨2026, 2, 1⟩) = 1 ∧
      (cutoverWeek exampleFebAligned).all
        (fun c => decide (c.day.map SimpleDate.month = some 3)) = true := by
  refine ⟨by decide, by decide, by decide⟩

/-- Witness for claim C6 (amended) at `exampleJuneLateAvail` (June 2024 grid:
boundary index 36, cutover week 5, boundary position 1). -/
theorem cutover_week_structure_witness :
    (cutoverWeek exampleJuneLateAvail).getD (boundaryIndex exampleJuneLateAvail % 7)
        ⟨none, true⟩ =
        ⟨some ⟨2024, 7, 1⟩,
          !decide (yyyymmdd ⟨2024, 7, 1⟩ ∈ exampleJuneLateAvail.includedDates)⟩ ∧
      (cutoverWeek exampleJuneLateAvail).countP (isTransitionCell ⟨2024, 6, 1⟩) = 1 :=
  ⟨(cutover_week_structure exampleJuneLateAvail (by decide)).1,
    (cutover_week_structure exampleJuneLateAvail (by decide)).2.1⟩

end DatePicker
